import Mathlib

/-!
Verification development for the Nachos file system, virtual memory and
console subsystems.  Definitions are shallow embeddings of the C++ sources
under `src/`; machine unsigned arithmetic is modelled with `Nat` (truncated
subtraction), and every place where C++ unsigned wrap-around could differ
from `Nat` truncation is guarded by the well-formedness hypotheses used in
the theorems (see `wfHeader`).
-/

namespace Nachos

/-! ## Build-time constants.
`SECTOR_SIZE` and the disk geometry come from `machine/disk.hh`, which is
not part of the sources at hand; the spec (§3) fixes the conventional value
of 128 bytes per sector.  The header constants are from
`filesys/raw_file_header.hh` (with `sizeof (int) = 4`). -/

def SECTOR_SIZE : Nat := 128

def NUM_SECTORS : Nat := 1024

def NUM_DIRECT : Nat := (SECTOR_SIZE - 3 * 4) / 4

def MAX_DIRECT_SIZE : Nat := NUM_DIRECT * SECTOR_SIZE

def NUM_INDIRECT : Nat := SECTOR_SIZE / 4

/-- Integer division rounding up, as in `lib/utility.hh`'s `DivRoundUp`. -/
def divRoundUp (n d : Nat) : Nat := (n + d - 1) / d

/-! ## Free-block map.
Modelled from the spec: `lib/bitmap` is not under `src/`; §4.1 gives the
operations `Mark`, `Clear`, `Test`, `Find` (returns a cleared sector and
marks it, or fails, signalled by `-1` as in the C++ callers) and
`CountClear`.  `Find` picks the lowest-numbered clear bit. -/

abbrev Bitmap := List Bool

def countClear (m : Bitmap) : Nat := m.count false

def bmTest (m : Bitmap) (s : Nat) : Bool := m.getD s false

def bmMark (m : Bitmap) (s : Nat) : Bitmap := m.set s true

def bmClear (m : Bitmap) (s : Nat) : Bitmap := m.set s false

def bmFind : Bitmap → Int × Bitmap
  | [] => (-1, [])
  | false :: rest => (0, true :: rest)
  | true :: rest =>
      let r := bmFind rest
      (if r.1 = -1 then -1 else r.1 + 1, true :: r.2)

/-! ## File header (`filesys/file_header.cc`, `filesys/raw_file_header.hh`).
The derived in-memory tables `firstIndir` and `secondIndir` are part of the
`FileHeader` object in the source and are carried here alongside the raw
fields.  Array cells the C++ code leaves uninitialized are modelled as the
`-1` sentinel; they are never read by the modelled operations. -/

structure FileHeader where
  numBytes : Nat
  numSectors : Nat
  indirSector : Int
  dataSectors : List Int
  firstIndir : List Int
  secondIndir : List (List Int)
  deriving DecidableEq, Repr

/-- Claim `n` sectors from the map by successive `Find` calls, recording the
results in order (the direct-pointer loop of `FileHeader::Allocate`). -/
def claimN (m : Bitmap) : Nat → List Int × Bitmap
  | 0 => ([], m)
  | n + 1 =>
      let f := bmFind m
      let r := claimN f.2 n
      (f.1 :: r.1, r.2)

/-- Inner loop of `FileHeader::Allocate`'s indirect phase: fill one
second-indirect block of `cnt` entries, claiming a data sector while
`sectorsLeft > 0` and writing the sentinel afterwards. -/
def allocRowFill (m : Bitmap) : Nat → Nat → List Int × Bitmap × Nat
  | 0, sl => ([], m, sl)
  | cnt + 1, sl =>
      if 0 < sl then
        let f := bmFind m
        let r := allocRowFill f.2 cnt (sl - 1)
        (f.1 :: r.1, r.2.1, r.2.2)
      else
        let r := allocRowFill m cnt sl
        ((-1) :: r.1, r.2.1, r.2.2)

/-- Outer loop of `FileHeader::Allocate`'s indirect phase over the
`NUM_INDIRECT` rows: row `i` claims a first-indirect sector and is filled
when `i < is'`, and is all sentinels otherwise. -/
def allocRows (m : Bitmap) : Nat → Nat → Nat → Nat →
    List Int × List (List Int) × Bitmap
  | 0, _, _, _ => ([], [], m)
  | cnt + 1, i, is', sl =>
      if i < is' then
        let f := bmFind m
        let row := allocRowFill f.2 NUM_INDIRECT sl
        let rest := allocRows row.2.1 cnt (i + 1) is' row.2.2
        (f.1 :: rest.1, row.1 :: rest.2.1, rest.2.2)
      else
        let rest := allocRows m cnt (i + 1) is' sl
        ((-1) :: rest.1, List.replicate NUM_INDIRECT (-1) :: rest.2.1, rest.2.2)

/-- `FileHeader::Allocate(freeMap, fileSize)`.  `none` is the `false` return
(insufficient space, the map untouched); otherwise the updated map and the
freshly built header are returned. -/
def allocate (freeMap : Bitmap) (fileSize : Nat) : Option (Bitmap × FileHeader) :=
  let numSectors := divRoundUp fileSize SECTOR_SIZE
  let indirSectors :=
    if MAX_DIRECT_SIZE < fileSize then
      let d := divRoundUp (fileSize - MAX_DIRECT_SIZE) SECTOR_SIZE
      d + (divRoundUp d NUM_INDIRECT + 1)
    else 0
  if countClear freeMap < numSectors + indirSectors then none
  else
    let dirSectors := min numSectors NUM_DIRECT
    let direct := claimN freeMap dirSectors
    let dataSectors := direct.1 ++ List.replicate (NUM_DIRECT - dirSectors) (-1)
    if indirSectors = 0 then
      some (direct.2,
        ⟨fileSize, numSectors, -1, dataSectors,
         List.replicate NUM_INDIRECT (-1),
         List.replicate NUM_INDIRECT (List.replicate NUM_INDIRECT (-1))⟩)
    else
      let f := bmFind direct.2
      let rows := allocRows f.2 NUM_INDIRECT 0 (indirSectors - 1)
                    (numSectors - NUM_DIRECT)
      some (rows.2.2, ⟨fileSize, numSectors, f.1, dataSectors, rows.1, rows.2.1⟩)

/-- `FileHeader::ByteToSector(offset)`: two-level translation. -/
def byteToSector (h : FileHeader) (offset : Nat) : Int :=
  let sectorIndex := offset / SECTOR_SIZE
  if sectorIndex < NUM_DIRECT then h.dataSectors.getD sectorIndex (-1)
  else
    let indirSectorIndex := sectorIndex - NUM_DIRECT
    (h.secondIndir.getD (indirSectorIndex / NUM_INDIRECT) []).getD
      (indirSectorIndex % NUM_INDIRECT) (-1)

/-! ## File growth (`FileHeader::Expand`, `FileSystem::ExpandFile`).
`ASSERT` failures halt the kernel; they are modelled by the dedicated
`halted` outcome, distinct from the `false` return (`failed`). -/

inductive ExpandResult where
  | halted
  | failed
  | ok (m : Bitmap) (h : FileHeader)
  deriving DecidableEq, Repr

def ExpandResult.isOk : ExpandResult → Bool
  | .ok _ _ => true
  | _ => false

/-- Overwrite consecutive cells of `l` starting at `start` with `vals`
(the direct-pointer fill loop of `FileHeader::Expand`). -/
def setSlots (l : List Int) (start : Nat) : List Int → List Int
  | [] => l
  | v :: vs => setSlots (l.set start v) (start + 1) vs

/-- Inner `j` loop of `FileHeader::Expand`'s indirect phase: walk one
second-indirect block while `newSectors > 0`, claiming a sector for each
cell still holding the sentinel. -/
def expRowFill (m : Bitmap) : List Int → Nat → List Int × Bitmap × Nat
  | [], dl => ([], m, dl)
  | s :: rest, dl =>
      if dl = 0 then (s :: rest, m, dl)
      else if s = -1 then
        let f := bmFind m
        let r := expRowFill f.2 rest (dl - 1)
        (f.1 :: r.1, r.2.1, r.2.2)
      else
        let r := expRowFill m rest dl
        (s :: r.1, r.2.1, r.2.2)

/-- Outer `i` loop of `FileHeader::Expand`'s indirect phase: runs while
`indirSectors > 0`, claiming a first-indirect sector for sentinel rows and
then filling the row's data cells. -/
def expRows (m : Bitmap) : List Int → List (List Int) → Nat → Nat →
    List Int × List (List Int) × Bitmap
  | [], rows, _, _ => ([], rows, m)
  | fi :: fis, [], _, _ => (fi :: fis, [], m)
  | fi :: fis, row :: rows, il, dl =>
      if il = 0 then (fi :: fis, row :: rows, m)
      else
        let st :=
          if fi = -1 then
            let f := bmFind m
            (f.1, f.2, il - 1)
          else (fi, m, il)
        let r := expRowFill st.2.1 row dl
        let rest := expRows r.2.1 fis rows st.2.2 r.2.2
        (st.1 :: rest.1, r.1 :: rest.2.1, rest.2.2)

/-- `FileHeader::Expand(freeMap, newBytes)`.  The `Nat` subtractions mirror
the source's unsigned subtractions; under the `wfHeader` hypotheses carried
by the theorems every subtraction is reached only when it cannot underflow,
so truncation and 32-bit wrap-around agree. -/
def expand (freeMap : Bitmap) (h : FileHeader) (newBytes : Nat) : ExpandResult :=
  if newBytes = 0 then .halted
  else
    let onLastSector := (SECTOR_SIZE - h.numBytes % SECTOR_SIZE) % SECTOR_SIZE
    let remainingData := if onLastSector < newBytes then newBytes - onLastSector else 0
    let newSectors := divRoundUp remainingData SECTOR_SIZE
    let indirSectors :=
      if h.indirSector ≠ -1 then
        let onLastIndir := (h.numSectors - NUM_DIRECT) % NUM_INDIRECT
        let remainingSectors :=
          if onLastIndir < newSectors then newSectors - onLastIndir else 0
        divRoundUp remainingSectors NUM_INDIRECT
      else if MAX_DIRECT_SIZE < h.numBytes + newBytes then
        let onDirSectors := NUM_DIRECT - h.numSectors
        divRoundUp (newSectors - onDirSectors) NUM_INDIRECT + 1
      else 0
    if countClear freeMap < newSectors + indirSectors then .failed
    else
      let oldSectors := h.numSectors
      let numBytes' := h.numBytes + newBytes
      let numSectors' := h.numSectors + newSectors
      let dFill := min numSectors' NUM_DIRECT - oldSectors
      let direct := claimN freeMap dFill
      let dataSectors' := setSlots h.dataSectors oldSectors direct.1
      let newSectors1 := newSectors - dFill
      if NUM_DIRECT < numSectors' then
        let st :=
          if h.indirSector = -1 then
            let f := bmFind direct.2
            (f.1, f.2, indirSectors - 1)
          else (h.indirSector, direct.2, indirSectors)
        if 0 < st.2.2 then
          let r := expRows st.2.1 h.firstIndir h.secondIndir st.2.2 newSectors1
          .ok r.2.2 ⟨numBytes', numSectors', st.1, dataSectors', r.1, r.2.1⟩
        else
          .ok st.2.1 ⟨numBytes', numSectors', st.1, dataSectors',
                      h.firstIndir, h.secondIndir⟩
      else
        .ok direct.2 ⟨numBytes', numSectors', h.indirSector, dataSectors',
                      h.firstIndir, h.secondIndir⟩

/-- `FileSystem::ExpandFile(sector, numBytes)`: asserts `numBytes != 0`,
then calls `Expand` on the open file's cached header and, on success,
writes the header and bitmap back (the returned `ok` state). -/
def expandFile (freeMap : Bitmap) (h : FileHeader) (numBytes : Nat) : ExpandResult :=
  if numBytes = 0 then .halted
  else expand freeMap h numBytes

/-- Headers of well-formed files, as established by a successful
`Allocate`: the sector count matches the byte count, and the single
indirect block exists exactly when the direct pointers overflow. -/
def wfHeader (h : FileHeader) : Prop :=
  h.numSectors = divRoundUp h.numBytes SECTOR_SIZE ∧
    (h.indirSector = -1 ↔ h.numSectors ≤ NUM_DIRECT)

instance (h : FileHeader) : Decidable (wfHeader h) := by
  unfold wfHeader; infer_instance

/-! ## Directories and `FileSystem::Create`
(`filesys/directory.cc`, `filesys/directory_entry.hh`,
`filesys/file_system.cc`).  `sizeof (DirectoryEntry)` is 32 bytes with the
usual 4-byte alignment (1 byte `inUse` + 3 padding + 4 `sector` + 21 `name`
+ 1 `isDir` + 2 padding). -/

def FILE_NAME_MAX_LEN : Nat := 20

def DIR_ENTRY_SIZE : Nat := 32

def NEW_DIR_ENTRIES : Nat := 5

def NUM_DIR_ENTRIES : Nat := 10

def DIRECTORY_FILE_SIZE : Nat := DIR_ENTRY_SIZE * NUM_DIR_ENTRIES

def swapStr : String := "SWAP."

/-- Test modelling `strncmp("SWAP.", name, 5) == 0`: the first five
characters of `name` equal `SWAP.` (false when `name` is shorter). -/
def swapCheck (nm : String) : Bool := nm.data.take 5 == swapStr.data

structure DirEntry where
  inUse : Bool
  sector : Nat
  name : String
  isDir : Bool
  deriving DecidableEq, Repr

def blankEntry : DirEntry := ⟨false, 0, "", false⟩

/-- `Directory::FindIndex(name)`: first in-use entry whose name matches
(names are bounded by `FILE_NAME_MAX_LEN`, so the `strncmp` is equality). -/
def findIdxDir (t : List DirEntry) (nm : String) : Option Nat :=
  t.findIdx? (fun e => e.inUse && e.name == nm)

/-- Persistent on-disk state touched by `FileSystem::Create` on one parent
directory: the free map file, the parent directory's file header, the
parent directory's entry table, all written file headers, and the sectors
that received a fresh empty directory image. -/
structure Disk where
  freeMapD : Bitmap
  dirHeaderD : FileHeader
  dirTableD : List DirEntry
  writtenHeaders : List (Nat × FileHeader)
  newDirSectors : List Nat
  deriving DecidableEq, Repr

inductive CreateResult where
  | ok
  | errPath
  | errReserved
  | errExists
  | errNoHeader
  | errNoSlot
  | errNoSpace
  deriving DecidableEq, Repr

/-- `FileSystem::Create(path, initialSize, isDir)` acting on the parent
directory resolved by `FindDirectory` (`dirFound`/`isRoot` abstract the
outcome of path resolution, which touches no persistent state).  All
mutations run on in-memory copies; the only disk writes are the ones the
source performs: `ExpandDirectory`'s eager `dirH->WriteBack`, and the
commit writes on full success. -/
def create (d : Disk) (dirFound : Bool) (isRoot : Bool) (nm : String)
    (initialSize : Nat) (isDir : Bool) : CreateResult × Disk :=
  if !dirFound then (.errPath, d)
  else if isRoot && isDir && swapCheck nm then (.errReserved, d)
  else if (findIdxDir d.dirTableD nm).isSome then (.errExists, d)
  else
    let f := bmFind d.freeMapD
    if f.1 = -1 then (.errNoHeader, d)
    else
      -- `Directory::Add`: first unused slot, else `ExpandDirectory`.
      let added :=
        match d.dirTableD.findIdx? (fun e => !e.inUse) with
        | some i =>
            some (d.dirTableD.set i ⟨true, f.1.toNat, nm, isDir⟩, f.2, d)
        | none =>
            match expand f.2 d.dirHeaderD (NEW_DIR_ENTRIES * DIR_ENTRY_SIZE) with
            | .ok fm2 dh' =>
                -- `dirH->WriteBack(dirSynch->GetSector())`: persistent write.
                some ((d.dirTableD ++ List.replicate NEW_DIR_ENTRIES blankEntry).set
                        d.dirTableD.length ⟨true, f.1.toNat, nm, isDir⟩,
                      fm2, { d with dirHeaderD := dh' })
            | _ => none
      match added with
      | none => (.errNoSlot, d)
      | some (table', fm', d1) =>
          match allocate fm' (if isDir then DIRECTORY_FILE_SIZE else initialSize) with
          | none => (.errNoSpace, d1)
          | some (fm3, h) =>
              (.ok,
               { freeMapD := fm3
                 dirHeaderD := d1.dirHeaderD
                 dirTableD := table'
                 writtenHeaders := (f.1.toNat, h) :: d1.writtenHeaders
                 newDirSectors :=
                   if isDir then f.1.toNat :: d1.newDirSectors
                   else d1.newDirSectors })

/-! ## Deferred removal of open files
(`filesys/file_synch.cc`, `FileSystem::Open`/`Remove` in
`filesys/file_system.cc`).  `reg` is the file's registry record (`opened`,
`beingRemoved`); `entryPresent` is the directory entry; `alive` says the
header and data sectors are still allocated; `reclaims` counts
deallocation events. -/

structure FileRec where
  opened : Nat
  beingRemoved : Bool
  deriving DecidableEq, Repr

structure FState where
  reg : Option FileRec
  entryPresent : Bool
  alive : Bool
  reclaims : Nat
  deriving DecidableEq, Repr

/-- `FileSystem::Open` restricted to one file: fails when the directory
entry is gone; creates the record with `opened = 1` on first open;
otherwise `FileSynch::FileOpened()` rejects when `beingRemoved` and
increments `opened` otherwise.  The `Bool` is whether a handle was
returned. -/
def fsOpen (s : FState) : FState × Bool :=
  if !s.entryPresent then (s, false)
  else
    match s.reg with
    | none => ({ s with reg := some ⟨1, false⟩ }, true)
    | some r =>
        if r.beingRemoved then (s, false)
        else ({ s with reg := some ⟨r.opened + 1, r.beingRemoved⟩ }, true)

/-- `FileSystem::Remove` restricted to one file: not found fails; if the
file has a registry record, `SetToRemove()` and success without touching
any sectors; otherwise deallocate immediately. -/
def fsRemove (s : FState) : FState × Bool :=
  if !s.entryPresent then (s, false)
  else
    match s.reg with
    | some r => ({ s with reg := some ⟨r.opened, true⟩ }, true)
    | none =>
        ({ s with entryPresent := false, alive := false,
                  reclaims := s.reclaims + 1 }, true)

/-- Modelled from the spec: the close path (`~OpenFile`, invoked by the
`Close` syscall) is not under `src/`.  Per §3 and §4.5, `FileClosed()`
decrements `opened`; when the count reaches zero the record is released
and, if `beingRemoved` was set, the deferred removal completes: sectors
deallocated and the directory entry removed, exactly once. -/
def fsClose (s : FState) : FState :=
  match s.reg with
  | none => s
  | some r =>
      let op' := r.opened - 1
      if op' = 0 then
        if r.beingRemoved then
          { reg := none, entryPresent := false, alive := false,
            reclaims := s.reclaims + 1 }
        else { s with reg := none }
      else { s with reg := some ⟨op', r.beingRemoved⟩ }

inductive FOp where
  | doOpen
  | doClose
  | doRemove
  deriving DecidableEq, Repr

def fstep (s : FState) : FOp → FState
  | .doOpen => (fsOpen s).1
  | .doClose => fsClose s
  | .doRemove => (fsRemove s).1

def frun (s : FState) : List FOp → FState
  | [] => s
  | op :: ops => frun (fstep s op) ops

/-- States of a live or fully reclaimed file: either the sectors are still
allocated and nothing was reclaimed, or the file is gone and its sectors
were reclaimed exactly once. -/
def FInv (s : FState) : Prop :=
  (s.alive = true ∧ s.entryPresent = true ∧ s.reclaims = 0) ∨
    (s.alive = false ∧ s.entryPresent = false ∧ s.reg = none ∧ s.reclaims = 1)

/-! ## Reader/writer coordination (`filesys/file_synch.cc`).
Each `Begin`/`Finish` body is atomic under `fileLock`; a blocked thread
re-tests the `while` condition before proceeding, so the completed
transitions are exactly the guarded steps below.  `BeginWriting` is split
at its suspension point: registering in `waitingToWrite`, and the guarded
commit that re-checks `writing || reading > 0`.  `Finish` steps carry the
calling discipline (only a thread inside a matching `Begin` calls them). -/

structure RW where
  reading : Nat
  writing : Bool
  waitingToWrite : Nat
  deriving DecidableEq, Repr

inductive RWStep : RW → RW → Prop where
  | beginRead {s : RW} (hw : s.writing = false) (hq : s.waitingToWrite = 0) :
      RWStep s { s with reading := s.reading + 1 }
  | finishRead {s : RW} (hr : 0 < s.reading) :
      RWStep s { s with reading := s.reading - 1 }
  | startWriteWait {s : RW} :
      RWStep s { s with waitingToWrite := s.waitingToWrite + 1 }
  | commitWrite {s : RW} (hq : 0 < s.waitingToWrite) (hw : s.writing = false)
      (hr : s.reading = 0) :
      RWStep s { reading := 0, writing := true,
                 waitingToWrite := s.waitingToWrite - 1 }
  | finishWrite {s : RW} (hw : s.writing = true) :
      RWStep s { s with writing := false }

def rwInit : RW := ⟨0, false, 0⟩

def RWReachable (s : RW) : Prop := Relation.ReflTransGen RWStep rwInit s

/-! ## Core map and second-chance replacement (`vmem/coremap.cc`).
The per-frame state is the `use` bit of the translation entry of the page
resident in that frame (`addrSpaces[f]->GetPage(virtualPages[f])->use`);
`owners` records the `(address space, virtual page)` tuple per frame. -/

lemma count_true_set_false (l : List Bool) (v : Nat)
    (h : l.getD v false = true) :
    (l.set v false).count true < l.count true := by
  induction l generalizing v with
  | nil => simp [List.getD] at h
  | cons b t ih =>
      cases v with
      | zero =>
          simp [List.getD_cons_zero] at h
          subst h
          simp [List.set, List.count_cons]
      | succ v =>
          have h' : t.getD v false = true := by
            simpa [List.getD_cons_succ] using h
          have := ih v h'
          simp only [List.set, List.count_cons]
          omega

/-- Victim-advance loop of `Coremap::UpdateVictim`: starting at `v`, while
the page at the cursor has its `use` bit set, clear the bit and advance the
cursor modulo the number of frames. -/
def clockLoop (uses : List Bool) (v : Nat) : List Bool × Nat :=
  if h : uses.getD v false = true then
    clockLoop (uses.set v false) ((v + 1) % uses.length)
  else (uses, v)
termination_by uses.count true
decreasing_by
  exact count_true_set_false uses v h

/-- Fuel-bounded variant of `clockLoop`, counting loop iterations: `none`
means the loop did not finish within `fuel` examined frames. -/
def clockLoopF : Nat → List Bool → Nat → Option (List Bool × Nat)
  | 0, _, _ => none
  | fuel + 1, uses, v =>
      if uses.getD v false = true then
        clockLoopF fuel (uses.set v false) ((v + 1) % uses.length)
      else some (uses, v)

structure CoreState where
  uses : List Bool
  victim : Nat
  frameMap : Bitmap
  owners : List (Nat × Nat)
  deriving DecidableEq, Repr

/-- `Coremap::UpdateVictim` (`VMEM` build): advance once, then run the
clearing loop. -/
def updateVictim (s : CoreState) : CoreState :=
  let r := clockLoop s.uses ((s.victim + 1) % s.uses.length)
  { s with uses := r.1, victim := r.2 }

/-- `Coremap::FreePage`: select the victim, clear its frame in the physical
page bitmap and report the owner `SaveToSwap` is invoked on. -/
def freePage (s : CoreState) : CoreState × (Nat × Nat) :=
  let s1 := updateVictim s
  ({ s1 with frameMap := bmClear s1.frameMap s1.victim },
   s1.owners.getD s1.victim (0, 0))

/-! ## Synchronized console input (`userprog/synch_console.cc`).
`ReadBuffer` is modelled by the trace of stores into the caller's buffer
(`(index, character)` pairs) together with the returned count; the console
stream is a total function since `ReadChar` blocks until a character is
available. -/

def nlChar : Char := '\n'

def nulChar : Char := Char.ofNat 0

/-- The `for` loop of `SynchConsole::ReadBuffer`: store each character at
index `i`, stopping after a newline or when `i` reaches `size`; returns the
store trace and the final value of `i`. -/
def rbLoop (input : Nat → Char) (size i : Nat) : List (Nat × Char) × Nat :=
  if _h : i < size then
    let ch := input i
    if ch = nlChar then ([(i, ch)], i)
    else
      let r := rbLoop input size (i + 1)
      ((i, ch) :: r.1, r.2)
  else ([], i)
termination_by size - i

/-- `SynchConsole::ReadBuffer(buffer, size)`: run the loop from 0, then
store the NUL terminator at `buffer[i + 1]`; the returned count is `i`. -/
def readBuffer (input : Nat → Char) (size : Nat) : List (Nat × Char) × Nat :=
  let r := rbLoop input size 0
  (r.1 ++ [(r.2 + 1, nulChar)], r.2)

/-! ## Bitmap accounting lemmas. -/

lemma countClear_cons_true (rest : Bitmap) :
    countClear (true :: rest) = countClear rest := by
  simp [countClear, List.count_cons]

lemma countClear_cons_false (rest : Bitmap) :
    countClear (false :: rest) = countClear rest + 1 := by
  simp [countClear, List.count_cons]

lemma bmFind_cons_true_snd (rest : Bitmap) :
    (bmFind (true :: rest)).2 = true :: (bmFind rest).2 := rfl

lemma bmFind_cons_true_fst (rest : Bitmap) :
    (bmFind (true :: rest)).1 =
      if (bmFind rest).1 = -1 then -1 else (bmFind rest).1 + 1 := rfl

lemma bmTest_cons_succ (b : Bool) (l : Bitmap) (n : Nat) :
    bmTest (b :: l) (n + 1) = bmTest l n := by
  simp [bmTest, List.getD_cons_succ]

lemma bmTest_cons_zero (b : Bool) (l : Bitmap) :
    bmTest (b :: l) 0 = b := by
  simp [bmTest, List.getD_cons_zero]

lemma bmFind_count (m : Bitmap) (hm : 0 < countClear m) :
    countClear (bmFind m).2 + 1 = countClear m := by
  induction m with
  | nil => simp [countClear] at hm
  | cons b rest ih =>
      cases b with
      | false =>
          show countClear (true :: rest) + 1 = countClear (false :: rest)
          rw [countClear_cons_true, countClear_cons_false]
      | true =>
          rw [countClear_cons_true] at hm
          rw [bmFind_cons_true_snd, countClear_cons_true, countClear_cons_true]
          exact ih hm

lemma bmFind_ne_none (m : Bitmap) (hm : 0 < countClear m) :
    (bmFind m).1 ≠ -1 ∧ 0 ≤ (bmFind m).1 := by
  induction m with
  | nil => simp [countClear] at hm
  | cons b rest ih =>
      cases b with
      | false => simp [bmFind]
      | true =>
          rw [countClear_cons_true] at hm
          have h := ih hm
          rw [bmFind_cons_true_fst, if_neg h.1]
          omega

lemma bmFind_fresh (m : Bitmap) (hm : 0 < countClear m) :
    bmTest m (bmFind m).1.toNat = false ∧
      bmTest (bmFind m).2 (bmFind m).1.toNat = true := by
  induction m with
  | nil => simp [countClear] at hm
  | cons b rest ih =>
      cases b with
      | false => simp [bmFind, bmTest]
      | true =>
          rw [countClear_cons_true] at hm
          have hne := bmFind_ne_none rest hm
          have h := ih hm
          rw [bmFind_cons_true_snd, bmFind_cons_true_fst, if_neg hne.1]
          have htn : ((bmFind rest).1 + 1).toNat = (bmFind rest).1.toNat + 1 := by
            omega
          rw [htn, bmTest_cons_succ, bmTest_cons_succ]
          exact h

lemma bmFind_mono (m : Bitmap) (s : Nat) (h : bmTest m s = true) :
    bmTest (bmFind m).2 s = true := by
  induction m generalizing s with
  | nil => simp [bmTest, List.getD] at h
  | cons b rest ih =>
      cases b with
      | false =>
          cases s with
          | zero => simp [bmFind, bmTest]
          | succ s =>
              show bmTest (true :: rest) (s + 1) = true
              rw [bmTest_cons_succ]
              rw [bmTest_cons_succ] at h
              exact h
      | true =>
          cases s with
          | zero => rw [bmFind_cons_true_snd, bmTest_cons_zero]
          | succ s =>
              rw [bmTest_cons_succ] at h
              rw [bmFind_cons_true_snd, bmTest_cons_succ]
              exact ih s h

lemma claimN_count : ∀ (n : Nat) (m : Bitmap), n ≤ countClear m →
    countClear (claimN m n).2 + n = countClear m := by
  intro n
  induction n with
  | zero => intro m _; simp [claimN]
  | succ n ih =>
      intro m hm
      have h1 := bmFind_count m (by omega)
      have h2 := ih (bmFind m).2 (by omega)
      simp only [claimN]
      omega

lemma claimN_mono : ∀ (n : Nat) (m : Bitmap) (s : Nat),
    bmTest m s = true → bmTest (claimN m n).2 s = true := by
  intro n
  induction n with
  | zero => intro m s h; simpa [claimN] using h
  | succ n ih =>
      intro m s h
      simp only [claimN]
      exact ih _ s (bmFind_mono m s h)

lemma expRowFill_mono : ∀ (row : List Int) (m : Bitmap) (dl s : Nat),
    bmTest m s = true → bmTest (expRowFill m row dl).2.1 s = true := by
  intro row
  induction row with
  | nil => intro m dl s h; simpa [expRowFill] using h
  | cons c rest ih =>
      intro m dl s h
      simp only [expRowFill]
      split
      · simpa using h
      · split
        · exact ih _ _ s (bmFind_mono m s h)
        · exact ih _ _ s h

lemma expRows_mono : ∀ (fis : List Int) (rows : List (List Int)) (m : Bitmap)
    (il dl s : Nat), bmTest m s = true →
    bmTest (expRows m fis rows il dl).2.2 s = true := by
  intro fis
  induction fis with
  | nil => intro rows m il dl s h; simpa [expRows] using h
  | cons fi fis ih =>
      intro rows m il dl s h
      cases rows with
      | nil => simpa [expRows] using h
      | cons row rows =>
          simp only [expRows]
          split
          · simpa using h
          · split
            · exact ih _ _ _ _ s (expRowFill_mono _ _ _ s (bmFind_mono m s h))
            · exact ih _ _ _ _ s (expRowFill_mono _ _ _ s h)

/-- C10: `FileHeader::Expand` and `FileSystem::ExpandFile` assert a
non-zero growth amount: called with zero they halt the kernel instead of
returning `false`. -/
theorem expand_zero_growth_halts :
    ∀ (bm : Bitmap) (h : FileHeader),
      expand bm h 0 = .halted ∧ expandFile bm h 0 = .halted := by
  intro bm h
  constructor
  · simp [expand]
  · simp [expandFile]


/-! ## Console read loop lemmas. -/

lemma rbLoop_no_nl (input : Nat → Char) (size : Nat) :
    ∀ (n i : Nat), size - i ≤ n → i ≤ size →
      (∀ j, i ≤ j → j < size → input j ≠ nlChar) →
      (rbLoop input size i).2 = size := by
  intro n
  induction n with
  | zero =>
      intro i h1 h2 _
      have : i = size := by omega
      subst this
      rw [rbLoop]
      simp
  | succ n ih =>
      intro i h1 h2 hno
      rw [rbLoop]
      by_cases hi : i < size
      · rw [dif_pos hi, if_neg (hno i le_rfl hi)]
        exact ih (i + 1) (by omega) (by omega)
          (fun j hj hj2 => hno j (by omega) hj2)
      · rw [dif_neg hi]
        omega

lemma rbLoop_nl (input : Nat → Char) (size k : Nat) (hk : k < size)
    (hnl : input k = nlChar) :
    ∀ (n i : Nat), k - i ≤ n → i ≤ k →
      (∀ j, i ≤ j → j < k → input j ≠ nlChar) →
      (rbLoop input size i).2 = k ∧ (k, nlChar) ∈ (rbLoop input size i).1 := by
  intro n
  induction n with
  | zero =>
      intro i h1 h2 _
      have : i = k := by omega
      subst this
      rw [rbLoop, dif_pos hk, if_pos hnl]
      simp [hnl]
  | succ n ih =>
      intro i h1 h2 hno
      by_cases hik : i = k
      · subst hik
        rw [rbLoop, dif_pos hk, if_pos hnl]
        simp [hnl]
      · have hi : i < size := by omega
        rw [rbLoop, dif_pos hi, if_neg (hno i le_rfl (by omega))]
        have := ih (i + 1) (by omega) (by omega)
          (fun j hj hj2 => hno j (by omega) hj2)
        simp only [List.mem_cons]
        exact ⟨this.1, Or.inr this.2⟩

/-- C9: `SynchConsole::ReadBuffer` stores the NUL terminator at
`buffer[i + 1]` where `i` is the index at which reading stopped: a newline
read at index `k` stays in `buffer[k]` with the terminator at `k + 1`, and
when no newline occurs among the first `size` characters the terminator is
stored at `buffer[size + 1]`, beyond index `size` of the caller's buffer. -/
theorem readBuffer_terminator_off_by_one :
    ∀ (input : Nat → Char) (size : Nat),
      ((∀ j, j < size → input j ≠ nlChar) →
        (readBuffer input size).2 = size ∧
          (size + 1, nulChar) ∈ (readBuffer input size).1) ∧
      (∀ k, k < size → input k = nlChar → (∀ j, j < k → input j ≠ nlChar) →
        (readBuffer input size).2 = k ∧
          (k, nlChar) ∈ (readBuffer input size).1 ∧
          (k + 1, nulChar) ∈ (readBuffer input size).1) := by
  intro input size
  constructor
  · intro hno
    have h2 := rbLoop_no_nl input size size 0 (by omega) (by omega)
      (fun j _ hj2 => hno j hj2)
    refine ⟨h2, ?_⟩
    simp [readBuffer, h2]
  · intro k hk hnl hno
    have h2 := rbLoop_nl input size k hk hnl k 0 (by omega) (by omega)
      (fun j _ hj2 => hno j hj2)
    refine ⟨h2.1, ?_, ?_⟩
    · simp [readBuffer, List.mem_append]
      exact Or.inl h2.2
    · simp [readBuffer, h2.1]

def w9input : Nat → Char := fun j => if j = 2 then nlChar else 'A'

theorem readBuffer_terminator_witness :
    (readBuffer w9input 5).2 = 2 ∧
      (2, nlChar) ∈ (readBuffer w9input 5).1 ∧
      (2 + 1, nulChar) ∈ (readBuffer w9input 5).1 :=
  (readBuffer_terminator_off_by_one w9input 5).2 2 (by omega) (by decide)
    (by
      intro j hj
      have : j = 0 ∨ j = 1 := by omega
      rcases this with h | h <;> subst h <;> decide)

/-- C5: every state of a `FileSynch` record reachable by `BeginReading`,
`FinishReading`, `BeginWriting` and `FinishWriting` satisfies the
reader/writer invariant (`writing` implies no readers; the reader count is
a natural number), and a step can admit a new reader only from a state with
no writer active and no writer waiting (writer preference). -/
theorem rw_invariant_writer_preference :
    (∀ s : RW, RWReachable s → s.writing = true → s.reading = 0) ∧
      (∀ s t : RW, RWStep s t → s.reading < t.reading →
        s.writing = false ∧ s.waitingToWrite = 0) := by
  constructor
  · intro s hs
    induction hs with
    | refl => intro h; simp [rwInit] at h
    | tail _ hstep ih =>
        cases hstep with
        | beginRead hw hq => intro h; simp_all
        | finishRead hr => intro h; simp_all
        | startWriteWait => intro h; simp_all
        | commitWrite hq hw hr => intro _; rfl
        | finishWrite hw => intro h; simp_all
  · intro s t hst hlt
    cases hst with
    | beginRead hw hq => exact ⟨hw, hq⟩
    | finishRead hr => simp at hlt; omega
    | startWriteWait => simp at hlt
    | commitWrite hq hw hr => simp at hlt
    | finishWrite hw => simp at hlt

theorem rw_invariant_witness :
    ((⟨0, true, 0⟩ : RW).reading = 0) ∧
      (rwInit.writing = false ∧ rwInit.waitingToWrite = 0) := by
  have h1 : RWReachable ⟨0, false, 1⟩ :=
    Relation.ReflTransGen.single (RWStep.startWriteWait (s := rwInit))
  have h2 : RWReachable ⟨0, true, 0⟩ :=
    h1.tail (RWStep.commitWrite (s := ⟨0, false, 1⟩) (by decide) rfl rfl)
  exact ⟨rw_invariant_writer_preference.1 ⟨0, true, 0⟩ h2 rfl,
    rw_invariant_writer_preference.2 rwInit ⟨1, false, 0⟩
      (RWStep.beginRead rfl rfl) (by decide)⟩


/-! ## Reserved `SWAP.` namespace (C7) and deferred removal (C4). -/

/-- C7: creating a directory in the root whose name starts with `SWAP.` is
rejected (before any other check or any state change), while `Create` with
`isDir = false` can never fail with the reserved-prefix rejection. -/
theorem create_swap_reserved_rule :
    (∀ (d : Disk) (nm : String) (sz : Nat),
        swapCheck nm = true →
        create d true true nm sz true = (.errReserved, d)) ∧
      (∀ (d : Disk) (df ir : Bool) (nm : String) (sz : Nat),
        (create d df ir nm sz false).1 ≠ .errReserved) := by
  constructor
  · intro d nm sz hsw
    simp [create, hsw]
  · intro d df ir nm sz
    simp only [create]
    repeat' split
    all_goals simp_all


def w7name : String := "SWAP.0"

def w7disk : Disk := ⟨[false, false], ⟨0, 0, -1, [], [], []⟩, [], [], []⟩

theorem create_swap_reserved_witness :
    create w7disk true true w7name 0 true = (.errReserved, w7disk) ∧
      (create w7disk true false w7name 0 false).1 ≠ .errReserved :=
  ⟨create_swap_reserved_rule.1 w7disk w7name 0 (by decide),
   create_swap_reserved_rule.2 w7disk true false w7name 0⟩

lemma FInv_step (s : FState) (op : FOp) (h : FInv s) : FInv (fstep s op) := by
  cases op with
  | doOpen =>
      rcases h with ⟨h1, h2, h3⟩ | ⟨h1, h2, h3, h4⟩
      · cases hr : s.reg with
        | none =>
            left
            simp [fstep, fsOpen, h2, hr, h1, h3]
        | some r =>
            cases hbr : r.beingRemoved with
            | true => left; simp [fstep, fsOpen, h2, hr, hbr, h1, h3]
            | false => left; simp [fstep, fsOpen, h2, hr, hbr, h1, h3]
      · right
        simp [fstep, fsOpen, h2, h1, h3, h4]
  | doRemove =>
      rcases h with ⟨h1, h2, h3⟩ | ⟨h1, h2, h3, h4⟩
      · cases hr : s.reg with
        | none =>
            right
            simp [fstep, fsRemove, h2, hr, h3]
        | some r =>
            left
            simp [fstep, fsRemove, h2, hr, h1, h3]
      · right
        simp [fstep, fsRemove, h2, h1, h3, h4]
  | doClose =>
      rcases h with ⟨h1, h2, h3⟩ | ⟨h1, h2, h3, h4⟩
      · cases hr : s.reg with
        | none => left; simp [fstep, fsClose, hr, h1, h2, h3]
        | some r =>
            by_cases hop : r.opened - 1 = 0
            · cases hbr : r.beingRemoved with
              | true => right; simp [fstep, fsClose, hr, hop, hbr, h3]
              | false => left; simp [fstep, fsClose, hr, hop, hbr, h1, h2, h3]
            · left
              simp [fstep, fsClose, hr, hop, h1, h2, h3]
      · right
        simp [fstep, fsClose, h3, h1, h2, h4]

/-- C4: removing an open file succeeds, touches no sectors, and only sets
`beingRemoved`; while the flag is set and the record exists, `Open` yields
no handle and changes nothing; a close reclaims exactly when it is the last
handle of a flagged record; and along any operation sequence the sectors of
a live file are reclaimed at most once (`FInv`). -/
theorem remove_open_file_deferred :
    (∀ (s : FState) (r : FileRec), s.reg = some r → s.entryPresent = true →
        fsRemove s = ({ s with reg := some ⟨r.opened, true⟩ }, true)) ∧
      (∀ (s : FState) (r : FileRec), s.reg = some r → r.beingRemoved = true →
        fsOpen s = (s, false)) ∧
      (∀ (s : FState) (r : FileRec), s.reg = some r → 0 < r.opened →
        (fstep s .doClose).reclaims = s.reclaims +
          (if r.opened = 1 ∧ r.beingRemoved = true then 1 else 0)) ∧
      (∀ (s : FState) (ops : List FOp), FInv s → FInv (frun s ops)) := by
  refine ⟨?_, ?_, ?_, ?_⟩
  · intro s r hr he
    simp [fsRemove, he, hr]
  · intro s r hr hbr
    cases he : s.entryPresent with
    | false => simp [fsOpen, he]
    | true => simp [fsOpen, he, hr, hbr]
  · intro s r hr hop
    obtain ⟨op, br⟩ := r
    simp only at hop
    match op, hop with
    | 1, _ =>
        cases br with
        | true => simp [fstep, fsClose, hr]
        | false => simp [fstep, fsClose, hr]
    | (n + 2), _ =>
        have h1 : ¬(n + 2 - 1 = 0) := by omega
        have h2 : ¬(n + 2 = 1) := by omega
        simp [fstep, fsClose, hr, h1, h2]
  · intro s ops
    induction ops generalizing s with
    | nil => intro h; exact h
    | cons op ops ih =>
        intro h
        exact ih (fstep s op) (FInv_step s op h)

def w4s : FState := ⟨some ⟨2, false⟩, true, true, 0⟩

def w4s2 : FState := ⟨some ⟨2, true⟩, true, true, 0⟩

theorem remove_open_file_witness :
    fsRemove w4s = ({ w4s with reg := some ⟨2, true⟩ }, true) ∧
      fsOpen w4s2 = (w4s2, false) ∧
      (fstep w4s2 .doClose).reclaims = w4s2.reclaims +
        (if (2 : Nat) = 1 ∧ true = true then 1 else 0) ∧
      FInv (frun w4s [.doRemove, .doClose, .doClose]) :=
  ⟨remove_open_file_deferred.1 w4s ⟨2, false⟩ rfl rfl,
   remove_open_file_deferred.2.1 w4s2 ⟨2, true⟩ rfl rfl,
   remove_open_file_deferred.2.2.1 w4s2 ⟨2, true⟩ rfl (by decide),
   remove_open_file_deferred.2.2.2 w4s [.doRemove, .doClose, .doClose]
     (by left; exact ⟨rfl, rfl, rfl⟩)⟩


/-! ## Concrete states exercising `Allocate`, `Expand` and `Create`. -/

set_option maxRecDepth 4000

def c1Map32 : Bitmap := List.replicate 32 false

def c1Map33 : Bitmap := List.replicate 33 false

/-- C1 counterexample: for `fileSize = 3713` the claim predicts
`ceil(3713/128) = 30` data sectors plus one single-indirect plus
`ceil(1/32) = 1` first-indirect sector, 32 sectors in all, so `Allocate`
should succeed on a map with exactly 32 clear sectors and, when it does
succeed, consume exactly 32.  The code refuses with 32 clear sectors, and
with 33 clear sectors it succeeds and consumes all 33. -/
theorem allocate_not_minimal_counterexample :
    countClear c1Map32 = 32 ∧
      divRoundUp 3713 SECTOR_SIZE + 1 +
        divRoundUp (divRoundUp 3713 SECTOR_SIZE - NUM_DIRECT) NUM_INDIRECT = 32 ∧
      allocate c1Map32 3713 = none ∧
      countClear c1Map33 = 33 ∧
      (allocate c1Map33 3713).map (fun p => countClear p.1) = some 0 := by
  refine ⟨by decide, by decide, by decide, by decide, by decide⟩

def c2Start : Option (Bitmap × FileHeader) :=
  allocate (List.replicate 40 false) 3713

def c2Run : ExpandResult :=
  match c2Start with
  | some (m, h) => expand m h 128
  | none => .failed

def c2Hdr : FileHeader :=
  match c2Run with
  | .ok _ h => h
  | _ => ⟨0, 0, 0, [], [], []⟩

def c2ClearMid : Nat :=
  match c2Start with
  | some (m, _) => countClear m
  | none => 0

def c2ClearAfter : Nat :=
  match c2Run with
  | .ok m _ => countClear m
  | _ => 0

/-- C2 failing run: allocate a 3713-byte file, then `Expand` it by 128
bytes.  `Expand` succeeds and maintains `numSectors = ceil(numBytes /
SECTOR_SIZE)`, but claims no sector for the new data block (the free map
is left unchanged), leaving `ByteToSector(30 * SECTOR_SIZE)` at the `-1`
sentinel instead of the 30th allocated data sector. -/
theorem expand_loses_data_sector :
    c2Run.isOk = true ∧
      c2Hdr.numBytes = 3841 ∧
      c2Hdr.numSectors = 31 ∧
      c2Hdr.numSectors = divRoundUp c2Hdr.numBytes SECTOR_SIZE ∧
      c2ClearMid = 7 ∧
      c2ClearAfter = 7 ∧
      byteToSector c2Hdr (30 * SECTOR_SIZE) = -1 ∧
      byteToSector c2Hdr (29 * SECTOR_SIZE) ≠ -1 := by
  refine ⟨by decide, by decide, by decide, by decide, by decide, by decide,
    by decide, by decide⟩

def c3FreeMap : Bitmap := List.replicate 6 true ++ [false, false]

def c3DirHeader : FileHeader :=
  ⟨320, 3, -1, [2, 3, 4] ++ List.replicate 26 (-1), List.replicate 32 (-1),
   List.replicate 32 (List.replicate 32 (-1))⟩

def c3Name (i : Nat) : String := "f" ++ toString i

def c3Table : List DirEntry :=
  (List.range 10).map (fun i => ⟨true, 100 + i, c3Name i, false⟩)

def c3Disk : Disk := ⟨c3FreeMap, c3DirHeader, c3Table, [], []⟩

def c3NewName : String := "newf"

def c3Run : CreateResult × Disk := create c3Disk true false c3NewName 1 false

/-- C3 failing run: `Create` of a 1-byte file in a directory whose ten
entries are all in use, with exactly two clear sectors in the free map.
The header
sector and the directory growth consume them, `ExpandDirectory` writes the
grown directory header to disk, and then data allocation fails: `Create`
returns failure, yet the persistent directory header has changed (320 to
480 bytes) while the on-disk free map and table are unchanged. -/
theorem create_failure_writes_directory_header :
    c3Run.1 = CreateResult.errNoSpace ∧
      c3Run.2.dirHeaderD.numBytes = 480 ∧
      c3Disk.dirHeaderD.numBytes = 320 ∧
      c3Run.2.dirHeaderD ≠ c3Disk.dirHeaderD ∧
      c3Run.2.freeMapD = c3Disk.freeMapD ∧
      c3Run.2.dirTableD = c3Disk.dirTableD ∧
      c3Run.2.writtenHeaders = c3Disk.writtenHeaders := by
  refine ⟨by decide, by decide, by decide, by decide, by decide, by decide,
    by decide⟩


/-! ## Space accounting for `Allocate` (C1). -/

lemma NUM_DIRECT_val : NUM_DIRECT = 29 := rfl

lemma NUM_INDIRECT_val : NUM_INDIRECT = 32 := rfl

lemma MAX_DIRECT_SIZE_val : MAX_DIRECT_SIZE = 3712 := rfl

/-- Sectors the space check of `FileHeader::Allocate` demands: the data
sectors plus the code's `indirSectors` bound, which counts the indirect
data sectors a second time. -/
def reqSectors (fileSize : Nat) : Nat :=
  divRoundUp fileSize SECTOR_SIZE +
    (if MAX_DIRECT_SIZE < fileSize then
      let d := divRoundUp (fileSize - MAX_DIRECT_SIZE) SECTOR_SIZE
      d + (divRoundUp d NUM_INDIRECT + 1)
    else 0)

/-- Sectors a successful `FileHeader::Allocate` actually claims: all data
sectors, plus — beyond the direct limit — the single-indirect sector and
`min(NUM_INDIRECT, d + ceil(d / NUM_INDIRECT))` first-indirect sectors,
more than the minimum infrastructure of `ceil(d / NUM_INDIRECT)`. -/
def claimedSectors (fileSize : Nat) : Nat :=
  if MAX_DIRECT_SIZE < fileSize then
    let d := divRoundUp (fileSize - MAX_DIRECT_SIZE) SECTOR_SIZE
    let r := min NUM_INDIRECT (d + divRoundUp d NUM_INDIRECT)
    NUM_DIRECT + 1 + r + min d (NUM_INDIRECT * r)
  else divRoundUp fileSize SECTOR_SIZE

lemma allocRowFill_count : ∀ (cnt : Nat) (m : Bitmap) (sl : Nat),
    min cnt sl ≤ countClear m →
    countClear (allocRowFill m cnt sl).2.1 + min cnt sl = countClear m ∧
      (allocRowFill m cnt sl).2.2 = sl - min cnt sl := by
  intro cnt
  induction cnt with
  | zero => intro m sl _; simp [allocRowFill]
  | succ cnt ih =>
      intro m sl hm
      by_cases hsl : 0 < sl
      · have hmin : min (cnt + 1) sl = min cnt (sl - 1) + 1 := by omega
        have hc0 : 0 < countClear m := by omega
        have hf := bmFind_count m hc0
        have hrec := ih (bmFind m).2 (sl - 1) (by omega)
        simp only [allocRowFill, if_pos hsl]
        constructor
        · omega
        · rw [hrec.2]; omega
      · have hsl0 : sl = 0 := by omega
        subst hsl0
        have hrec := ih m 0 (by omega)
        simp only [allocRowFill, if_neg hsl]
        constructor
        · simpa using hrec.1
        · simpa using hrec.2

lemma allocRows_count : ∀ (cnt : Nat) (m : Bitmap) (i is' sl : Nat),
    min cnt (is' - i) + min sl (NUM_INDIRECT * min cnt (is' - i)) ≤
      countClear m →
    countClear (allocRows m cnt i is' sl).2.2 +
        (min cnt (is' - i) + min sl (NUM_INDIRECT * min cnt (is' - i))) =
      countClear m := by
  intro cnt
  induction cnt with
  | zero => intro m i is' sl _; simp [allocRows]
  | succ cnt ih =>
      intro m i is' sl hm
      simp only [allocRows]
      rw [NUM_INDIRECT_val] at hm ⊢
      by_cases hi : i < is'
      · rw [if_pos hi]
        have hc0 : 0 < countClear m := by omega
        have hf := bmFind_count m hc0
        have hrow := allocRowFill_count 32 (bmFind m).2 sl (by omega)
        have hrec := ih (allocRowFill (bmFind m).2 32 sl).2.1 (i + 1)
          is' (allocRowFill (bmFind m).2 32 sl).2.2 ?_
        · rw [NUM_INDIRECT_val] at hrec
          rw [hrow.2] at hrec
          simp only [NUM_INDIRECT_val]
          rw [hrow.2]
          omega
        · rw [NUM_INDIRECT_val, hrow.2]
          omega
      · rw [if_neg hi]
        show countClear (allocRows m cnt (i + 1) is' sl).2.2 +
            (min (cnt + 1) (is' - i) + min sl (32 * min (cnt + 1) (is' - i))) =
          countClear m
        have hrec := ih m (i + 1) is' sl ?_
        · rw [NUM_INDIRECT_val] at hrec
          omega
        · rw [NUM_INDIRECT_val]
          omega

lemma allocate_none_iff (bm : Bitmap) (fs : Nat) :
    allocate bm fs = none ↔ countClear bm < reqSectors fs := by
  simp only [allocate, reqSectors]
  split
  · rename_i hC
    simp [hC]
  · rename_i hC
    split <;> simp [hC] <;> omega

lemma allocate_countClear (bm : Bitmap) (fs : Nat) (bm' : Bitmap)
    (h : FileHeader) (hs : allocate bm fs = some (bm', h)) :
    countClear bm' + claimedSectors fs = countClear bm := by
  simp only [allocate] at hs
  split at hs
  · -- indirect case: `MAX_DIRECT_SIZE < fs`
    rename_i hfs
    set d := divRoundUp (fs - MAX_DIRECT_SIZE) SECTOR_SIZE with hd
    set c := divRoundUp d NUM_INDIRECT with hc
    have hfs' : 3712 < fs := MAX_DIRECT_SIZE_val ▸ hfs
    have hd1 : 1 ≤ d := by
      rw [hd]
      simp only [divRoundUp, SECTOR_SIZE, MAX_DIRECT_SIZE_val]
      omega
    have hns : divRoundUp fs SECTOR_SIZE = 29 + d := by
      rw [hd]
      simp only [divRoundUp, SECTOR_SIZE, MAX_DIRECT_SIZE_val]
      omega
    have hcd : 32 * c < d + 32 ∧ d ≤ 32 * c := by
      rw [hc]
      simp only [divRoundUp, NUM_INDIRECT_val]
      omega
    rw [hns] at hs
    split at hs
    · exact absurd hs (by simp)
    · rename_i hcc
      rw [not_lt] at hcc
      rw [if_neg (show ¬(d + (c + 1) = 0) by omega)] at hs
      have hmin : min (29 + d) NUM_DIRECT = 29 := by
        rw [NUM_DIRECT_val]; omega
      rw [hmin] at hs
      have h1 := claimN_count 29 bm (by omega)
      have h2 := bmFind_count (claimN bm 29).2 (by omega)
      have hRe : d + (c + 1) - 1 - 0 = d + c := by omega
      have hsl : 29 + d - NUM_DIRECT = d := by rw [NUM_DIRECT_val]; omega
      have hrows := allocRows_count NUM_INDIRECT
        (bmFind (claimN bm 29).2).2 0 (d + (c + 1) - 1) (29 + d - NUM_DIRECT)
        ?_
      · simp only [Option.some.injEq, Prod.mk.injEq] at hs
        rw [← hs.1, hsl]
        rw [hRe, hsl] at hrows
        simp only [claimedSectors]
        rw [if_pos hfs, ← hd, ← hc]
        rw [NUM_INDIRECT_val] at hrows ⊢
        have h29 := NUM_DIRECT_val
        omega
      · rw [hRe, hsl, NUM_INDIRECT_val]
        omega
  · -- direct-only case
    rename_i hfs
    have hns29 : divRoundUp fs SECTOR_SIZE ≤ 29 := by
      rw [not_lt, MAX_DIRECT_SIZE_val] at hfs
      simp only [divRoundUp, SECTOR_SIZE]
      omega
    split at hs
    · exact absurd hs (by simp)
    · rename_i hcc
      rw [not_lt] at hcc
      rw [if_pos rfl] at hs
      have hmin : min (divRoundUp fs SECTOR_SIZE) NUM_DIRECT =
          divRoundUp fs SECTOR_SIZE := by
        rw [NUM_DIRECT_val]; omega
      rw [hmin] at hs
      have h1 := claimN_count (divRoundUp fs SECTOR_SIZE) bm (by omega)
      simp only [Option.some.injEq, Prod.mk.injEq] at hs
      rw [← hs.1, claimedSectors, if_neg hfs]
      omega

/-- C1 (amended): `FileHeader::Allocate(freeMap, fileSize)` succeeds iff
the free map has at least `reqSectors fileSize` clear sectors — the code's
bound, which double-counts the indirect data sectors, rather than the
minimum-infrastructure count — and on success it claims exactly
`claimedSectors fileSize` sectors: all data sectors plus, beyond the direct
limit, one single-indirect sector and `min(NUM_INDIRECT, d + ceil(d /
NUM_INDIRECT))` first-indirect sectors (not the minimal `ceil(d /
NUM_INDIRECT)`).  On failure it returns before claiming anything, leaving
the free map untouched. -/
theorem allocate_space_accounting :
    ∀ (bm : Bitmap) (fileSize : Nat),
      (allocate bm fileSize = none ↔ countClear bm < reqSectors fileSize) ∧
        ∀ bm' h, allocate bm fileSize = some (bm', h) →
          countClear bm' + claimedSectors fileSize = countClear bm :=
  fun bm fs =>
    ⟨allocate_none_iff bm fs,
     fun bm' h hs => allocate_countClear bm fs bm' h hs⟩

def w1Map : Bitmap := List.replicate 5 false

def w1MapAfter : Bitmap := [true, true, true, false, false]

def w1Hdr : FileHeader :=
  ⟨300, 3, -1, [0, 1, 2] ++ List.replicate 26 (-1), List.replicate 32 (-1),
   List.replicate 32 (List.replicate 32 (-1))⟩

theorem allocate_space_accounting_witness :
    (allocate w1Map 3713 = none ↔ countClear w1Map < reqSectors 3713) ∧
      countClear w1MapAfter + claimedSectors 300 = countClear w1Map :=
  ⟨(allocate_space_accounting w1Map 3713).1,
   (allocate_space_accounting w1Map 300).2 w1MapAfter w1Hdr (by decide)⟩


/-! ## Clock-loop lemmas (C8). -/

lemma bgetD_set_self : ∀ (l : List Bool) (v : Nat) (x : Bool),
    v < l.length → (l.set v x).getD v false = x := by
  intro l
  induction l with
  | nil => intro v x hv; simp at hv
  | cons b t ih =>
      intro v x hv
      cases v with
      | zero => simp [List.set]
      | succ v =>
          simp only [List.set, List.getD_cons_succ]
          exact ih v x (by simpa using hv)

lemma bgetD_set_other : ∀ (l : List Bool) (v w : Nat) (x : Bool),
    v ≠ w → (l.set v x).getD w false = l.getD w false := by
  intro l
  induction l with
  | nil => intro v w x _; simp [List.set]
  | cons b t ih =>
      intro v w x hne
      cases v with
      | zero =>
          cases w with
          | zero => exact absurd rfl hne
          | succ w => simp [List.set, List.getD_cons_succ]
      | succ v =>
          cases w with
          | zero => simp [List.set, List.getD_cons_zero]
          | succ w =>
              simp only [List.set, List.getD_cons_succ]
              exact ih v w x (by omega)

lemma getD_true_count_pos (l : List Bool) (v : Nat)
    (h : l.getD v false = true) : 0 < l.count true := by
  have := count_true_set_false l v h
  omega

lemma clockLoop_spec : ∀ (cBound : Nat) (uses : List Bool) (v : Nat),
    uses.count true ≤ cBound → v < uses.length →
    ∃ k, k ≤ uses.count true ∧
      (clockLoop uses v).2 = (v + k) % uses.length ∧
      (∀ j, j < k → uses.getD ((v + j) % uses.length) false = true) ∧
      (clockLoop uses v).1.getD (clockLoop uses v).2 false = false ∧
      (∀ i, (clockLoop uses v).1.getD i false = true →
        uses.getD i false = true) := by
  intro cBound
  induction cBound with
  | zero =>
      intro uses v hc hv
      have hg : ¬(uses.getD v false = true) := by
        intro hg
        have := getD_true_count_pos uses v hg
        omega
      refine ⟨0, by omega, ?_, by omega, ?_, ?_⟩
      · rw [clockLoop, dif_neg hg]
        simp [Nat.mod_eq_of_lt hv]
      · rw [clockLoop, dif_neg hg]
        simpa using hg
      · intro i
        rw [clockLoop, dif_neg hg]
        exact fun h => h
  | succ cb ih =>
      intro uses v hc hv
      by_cases hg : uses.getD v false = true
      · have hlen0 : 0 < uses.length := by omega
        have hcount := count_true_set_false uses v hg
        have hlen : (uses.set v false).length = uses.length := by simp
        have hv' : (v + 1) % uses.length < (uses.set v false).length := by
          rw [hlen]
          exact Nat.mod_lt _ hlen0
        obtain ⟨k, hk1, hk2, hk3, hk4, hk5⟩ :=
          ih (uses.set v false) ((v + 1) % uses.length) (by omega) hv'
        have hrw : clockLoop uses v =
            clockLoop (uses.set v false) ((v + 1) % uses.length) := by
          rw [clockLoop, dif_pos hg]
        rw [hlen] at hk2 hk3
        refine ⟨k + 1, by omega, ?_, ?_, ?_, ?_⟩
        · rw [hrw, hk2, Nat.mod_add_mod]
          congr 1
          omega
        · intro j hj
          cases j with
          | zero => simpa [Nat.mod_eq_of_lt hv] using hg
          | succ j =>
              have hj' : j < k := by omega
              have := hk3 j hj'
              rw [Nat.mod_add_mod] at this
              have hidx : v + 1 + j = v + (j + 1) := by omega
              rw [hidx] at this
              by_cases hiv : (v + (j + 1)) % uses.length = v
              · rw [hiv] at this
                rw [bgetD_set_self uses v false hv] at this
                exact absurd this (by simp)
              · rw [bgetD_set_other uses v _ false (fun hh => hiv hh.symm)]
                  at this
                exact this
        · rw [hrw]
          exact hk4
        · intro i hi
          rw [hrw] at hi
          have := hk5 i hi
          by_cases hiv : i = v
          · subst hiv
            rw [bgetD_set_self uses i false hv] at this
            exact absurd this (by simp)
          · rw [bgetD_set_other uses v i false (fun hh => hiv hh.symm)] at this
            exact this
      · refine ⟨0, by omega, ?_, by omega, ?_, ?_⟩
        · rw [clockLoop, dif_neg hg]
          simp [Nat.mod_eq_of_lt hv]
        · rw [clockLoop, dif_neg hg]
          simpa using hg
        · intro i
          rw [clockLoop, dif_neg hg]
          exact fun h => h

lemma clockLoopF_complete : ∀ (cb : Nat) (uses : List Bool) (v : Nat),
    uses.count true ≤ cb →
    clockLoopF (cb + 1) uses v = some (clockLoop uses v) := by
  intro cb
  induction cb with
  | zero =>
      intro uses v hc
      have hg : ¬(uses.getD v false = true) := by
        intro hg
        have := getD_true_count_pos uses v hg
        omega
      rw [clockLoop, dif_neg hg]
      simp only [clockLoopF]
      rw [if_neg hg]
  | succ cb ih =>
      intro uses v hc
      by_cases hg : uses.getD v false = true
      · have hcount := count_true_set_false uses v hg
        rw [clockLoop, dif_pos hg]
        simp only [clockLoopF, if_pos hg]
        exact ih (uses.set v false) ((v + 1) % uses.length) (by omega)
      · rw [clockLoop, dif_neg hg]
        simp only [clockLoopF]
        rw [if_neg hg]

lemma clockLoopF_mono : ∀ (f f' : Nat) (uses : List Bool) (v : Nat)
    (r : List Bool × Nat), clockLoopF f uses v = some r → f ≤ f' →
    clockLoopF f' uses v = some r := by
  intro f
  induction f with
  | zero => intro f' uses v r hr; simp [clockLoopF] at hr
  | succ f ih =>
      intro f' uses v r hr hle
      obtain ⟨f'', rfl⟩ : ∃ f'', f' = f'' + 1 := ⟨f' - 1, by omega⟩
      simp only [clockLoopF] at hr ⊢
      split at hr
      · rename_i hg
        rw [if_pos hg]
        exact ih f'' _ _ r hr (by omega)
      · rename_i hg
        rw [if_neg hg]
        exact hr

/-- C8: from any core-map state, `Coremap::FreePage` terminates: the
fuelled clock loop finishes within `2 * NUM_PHYS_PAGES` examined frames
and agrees with the total function; the final victim's `use` bit is clear;
the loop only clears `use` bits, never sets them; every frame it passed
had its `use` bit set originally (so it stops at the first clear frame);
and the selected frame is cleared in the physical-page bitmap with
`SaveToSwap` invoked on the frame's recorded owner. -/
theorem freePage_second_chance :
    ∀ (s : CoreState) (n : Nat), 0 < n → s.uses.length = n → s.victim < n →
      clockLoopF (2 * n) s.uses ((s.victim + 1) % n) =
          some (clockLoop s.uses ((s.victim + 1) % n)) ∧
        (clockLoop s.uses ((s.victim + 1) % n)).1.getD
            (clockLoop s.uses ((s.victim + 1) % n)).2 false = false ∧
        (∀ i, (clockLoop s.uses ((s.victim + 1) % n)).1.getD i false = true →
            s.uses.getD i false = true) ∧
        (∃ k, k ≤ s.uses.count true ∧
          (clockLoop s.uses ((s.victim + 1) % n)).2 =
            ((s.victim + 1) % n + k) % n ∧
          ∀ j, j < k →
            s.uses.getD (((s.victim + 1) % n + j) % n) false = true) ∧
        freePage s =
          ({ uses := (clockLoop s.uses ((s.victim + 1) % n)).1,
             victim := (clockLoop s.uses ((s.victim + 1) % n)).2,
             frameMap := bmClear s.frameMap
               (clockLoop s.uses ((s.victim + 1) % n)).2,
             owners := s.owners },
           s.owners.getD (clockLoop s.uses ((s.victim + 1) % n)).2 (0, 0)) := by
  intro s n hn hlen hv
  have hv0 : (s.victim + 1) % n < s.uses.length := by
    rw [hlen]
    exact Nat.mod_lt _ hn
  have hcount : s.uses.count true ≤ n := by
    have := List.count_le_length (l := s.uses) (a := true)
    omega
  obtain ⟨k, hk1, hk2, hk3, hk4, hk5⟩ :=
    clockLoop_spec (s.uses.count true) s.uses ((s.victim + 1) % n) le_rfl hv0
  rw [hlen] at hk2 hk3
  refine ⟨?_, hk4, hk5, ⟨k, hk1, hk2, hk3⟩, ?_⟩
  · exact clockLoopF_mono (s.uses.count true + 1) (2 * n) s.uses _ _
      (clockLoopF_complete (s.uses.count true) s.uses _ le_rfl) (by omega)
  · simp only [freePage, updateVictim, hlen]

def w8state : CoreState :=
  ⟨[true, true, false, true], 0, [true, true, true, true],
   [(1, 10), (1, 11), (2, 12), (2, 13)]⟩

theorem freePage_second_chance_witness :
    clockLoopF (2 * 4) w8state.uses ((w8state.victim + 1) % 4) =
        some (clockLoop w8state.uses ((w8state.victim + 1) % 4)) ∧
      (clockLoop w8state.uses ((w8state.victim + 1) % 4)).1.getD
          (clockLoop w8state.uses ((w8state.victim + 1) % 4)).2 false =
        false ∧
      (∀ i, (clockLoop w8state.uses ((w8state.victim + 1) % 4)).1.getD i false
            = true →
          w8state.uses.getD i false = true) ∧
      (∃ k, k ≤ w8state.uses.count true ∧
        (clockLoop w8state.uses ((w8state.victim + 1) % 4)).2 =
          ((w8state.victim + 1) % 4 + k) % 4 ∧
        ∀ j, j < k →
          w8state.uses.getD (((w8state.victim + 1) % 4 + j) % 4) false =
            true) ∧
      freePage w8state =
        ({ uses := (clockLoop w8state.uses ((w8state.victim + 1) % 4)).1,
           victim := (clockLoop w8state.uses ((w8state.victim + 1) % 4)).2,
           frameMap := bmClear w8state.frameMap
             (clockLoop w8state.uses ((w8state.victim + 1) % 4)).2,
           owners := w8state.owners },
         w8state.owners.getD
           (clockLoop w8state.uses ((w8state.victim + 1) % 4)).2 (0, 0)) :=
  freePage_second_chance w8state 4 (by decide) (by decide) (by decide)


/-! ## `Expand` edge cases (C6). -/

lemma SECTOR_SIZE_val : SECTOR_SIZE = 128 := rfl

lemma claimN_zero (m : Bitmap) : claimN m 0 = ([], m) := rfl

lemma setSlots_nil (l : List Int) (st : Nat) : setSlots l st [] = l := rfl

lemma expand_within_last_sector (bm : Bitmap) (h : FileHeader) (nb : Nat)
    (hw : wfHeader h) (hnb : nb ≠ 0)
    (hle : nb ≤ (SECTOR_SIZE - h.numBytes % SECTOR_SIZE) % SECTOR_SIZE) :
    expand bm h nb = .ok bm { h with numBytes := h.numBytes + nb } := by
  obtain ⟨hlaw, hiff⟩ := hw
  obtain ⟨nbytes, nsect, isec, ds, fi, si⟩ := h
  simp only [divRoundUp, SECTOR_SIZE_val, NUM_DIRECT_val] at hlaw hiff hle
  simp only [expand, if_neg hnb, divRoundUp, SECTOR_SIZE_val, NUM_DIRECT_val,
    NUM_INDIRECT_val, MAX_DIRECT_SIZE_val]
  rw [if_neg (show ¬((128 - nbytes % 128) % 128 < nb) by omega)]
  have hz : (0 + 128 - 1) / 128 = 0 := by norm_num
  rw [hz]
  have hind :
      (if isec ≠ -1 then
        ((if (nsect - 29) % 32 < 0 then 0 - (nsect - 29) % 32 else 0) + 32 -
            1) / 32
      else if 3712 < nbytes + nb then (0 - (29 - nsect) + 32 - 1) / 32 + 1
      else 0) = 0 := by
    by_cases his : isec = -1
    · have hns29 : nsect ≤ 29 := hiff.mp his
      have hnot : ¬(3712 < nbytes + nb) := by omega
      simp [his, hnot]
    · simp only [ne_eq, his, not_false_eq_true, if_true]
      norm_num
  rw [hind]
  rw [if_neg (show ¬(countClear bm < 0 + 0) by omega)]
  have harg : (nsect + 0) ⊓ 29 - nsect = 0 := by omega
  rw [harg, claimN_zero]
  by_cases hns : 29 < nsect + 0
  · rw [if_pos hns]
    have his : ¬(isec = -1) := by
      intro his
      have := hiff.mp his
      omega
    rw [if_neg his]
    rw [if_neg (show ¬((0 : Nat) < (isec, bm, (0 : Nat)).2.2) by simp)]
    rw [setSlots_nil]
    rfl
  · rw [if_neg hns, setSlots_nil]
    rfl


lemma expand_to_direct_limit (bm : Bitmap) (h : FileHeader) (nb : Nat)
    (bm' : Bitmap) (h' : FileHeader) (hw : wfHeader h) (hnb : nb ≠ 0)
    (hmax : h.numBytes + nb = MAX_DIRECT_SIZE)
    (hok : expand bm h nb = .ok bm' h') :
    h'.indirSector = -1 ∧ h'.firstIndir = h.firstIndir ∧
      h'.secondIndir = h.secondIndir := by
  obtain ⟨hlaw, hiff⟩ := hw
  obtain ⟨nbytes, nsect, isec, ds, fi, si⟩ := h
  simp only [divRoundUp, SECTOR_SIZE_val, NUM_DIRECT_val] at hlaw hiff
  rw [MAX_DIRECT_SIZE_val] at hmax
  simp only at hmax
  have hns29 : nsect ≤ 29 := by omega
  have his : isec = -1 := hiff.mpr hns29
  simp only [expand, if_neg hnb, divRoundUp, SECTOR_SIZE_val, NUM_DIRECT_val,
    NUM_INDIRECT_val, MAX_DIRECT_SIZE_val] at hok
  rw [if_neg (show ¬(isec ≠ -1) by simp [his])] at hok
  rw [if_neg (show ¬(3712 < nbytes + nb) by omega)] at hok
  by_cases hc : (128 - nbytes % 128) % 128 < nb
  · rw [if_pos hc] at hok
    split at hok
    · exact absurd hok (by simp)
    · rw [if_neg (show ¬(29 < nsect +
          (nb - (128 - nbytes % 128) % 128 + 128 - 1) / 128) by omega)] at hok
      simp only [ExpandResult.ok.injEq] at hok
      rw [← hok.2, his]
      exact ⟨rfl, rfl, rfl⟩
  · rw [if_neg hc] at hok
    split at hok
    · exact absurd hok (by simp)
    · rw [if_neg (show ¬(29 < nsect + (0 + 128 - 1) / 128) by omega)] at hok
      simp only [ExpandResult.ok.injEq] at hok
      rw [← hok.2, his]
      exact ⟨rfl, rfl, rfl⟩

lemma expand_cross_boundary (bm : Bitmap) (h : FileHeader) (nb : Nat)
    (bm' : Bitmap) (h' : FileHeader) (hw : wfHeader h)
    (hcross : MAX_DIRECT_SIZE < h.numBytes + nb)
    (hold : h.numBytes ≤ MAX_DIRECT_SIZE)
    (hok : expand bm h nb = .ok bm' h') :
    h'.indirSector ≠ -1 ∧ bmTest bm h'.indirSector.toNat = false ∧
      bmTest bm' h'.indirSector.toNat = true := by
  obtain ⟨hlaw, hiff⟩ := hw
  obtain ⟨nbytes, nsect, isec, ds, fi, si⟩ := h
  simp only [divRoundUp, SECTOR_SIZE_val, NUM_DIRECT_val] at hlaw hiff
  rw [MAX_DIRECT_SIZE_val] at hcross hold
  simp only at hcross hold
  have hnb : nb ≠ 0 := by omega
  have hns29 : nsect ≤ 29 := by omega
  have his : isec = -1 := hiff.mpr hns29
  have hc : (128 - nbytes % 128) % 128 < nb := by omega
  simp only [expand, if_neg hnb, divRoundUp, SECTOR_SIZE_val, NUM_DIRECT_val,
    NUM_INDIRECT_val, MAX_DIRECT_SIZE_val] at hok
  rw [if_neg (show ¬(isec ≠ -1) by simp [his])] at hok
  rw [if_pos (show 3712 < nbytes + nb by omega)] at hok
  rw [if_pos hc] at hok
  split at hok
  · exact absurd hok (by simp)
  · rename_i hcc
    rw [not_lt] at hcc
    rw [if_pos (show 29 < nsect +
        (nb - (128 - nbytes % 128) % 128 + 128 - 1) / 128 by omega)] at hok
    set dFill := (nsect + (nb - (128 - nbytes % 128) % 128 + 128 - 1) / 128) ⊓
        29 - nsect with hdF
    have hdFle : dFill ≤
        (nb - (128 - nbytes % 128) % 128 + 128 - 1) / 128 := by omega
    have hcl := claimN_count dFill bm (by omega)
    have hpos : 0 < countClear (claimN bm dFill).2 := by omega
    have hfind := bmFind_fresh (claimN bm dFill).2 hpos
    have hne := bmFind_ne_none (claimN bm dFill).2 hpos
    have hback : bmTest bm (bmFind (claimN bm dFill).2).1.toNat = false := by
      by_cases hb : bmTest bm (bmFind (claimN bm dFill).2).1.toNat = true
      · have := claimN_mono dFill bm _ hb
        rw [hfind.1] at this
        exact absurd this (by simp)
      · simpa using hb
    split at hok
    · simp only [ExpandResult.ok.injEq] at hok
      refine ⟨?_, ?_, ?_⟩
      · rw [← hok.2]
        exact hne.1
      · rw [← hok.2]
        exact hback
      · rw [← hok.2, ← hok.1]
        exact expRows_mono fi si _ _ _ _ hfind.2
    · simp only [ExpandResult.ok.injEq] at hok
      refine ⟨?_, ?_, ?_⟩
      · rw [← hok.2]
        exact hne.1
      · rw [← hok.2]
        exact hback
      · rw [← hok.2, ← hok.1]
        exact hfind.2

lemma expand_preserves_indir (bm : Bitmap) (h : FileHeader) (nb : Nat)
    (bm' : Bitmap) (h' : FileHeader) (his : h.indirSector ≠ -1)
    (hok : expand bm h nb = .ok bm' h') :
    h'.indirSector = h.indirSector := by
  obtain ⟨nbytes, nsect, isec, ds, fi, si⟩ := h
  simp only at his ⊢
  by_cases hnb : nb = 0
  · rw [hnb] at hok
    simp [expand] at hok
  simp only [expand, if_neg hnb, divRoundUp, SECTOR_SIZE_val, NUM_DIRECT_val,
    NUM_INDIRECT_val, MAX_DIRECT_SIZE_val] at hok
  rw [if_pos his] at hok
  by_cases hc : (128 - nbytes % 128) % 128 < nb
  all_goals
    first
      | rw [if_pos hc] at hok
      | rw [if_neg hc] at hok
  all_goals repeat' split at hok
  all_goals try exact ExpandResult.noConfusion hok
  all_goals
    simp only [ExpandResult.ok.injEq] at hok
    obtain ⟨hb, hh⟩ := hok
    subst hh
    rfl


/-- C6: `FileHeader::Expand` edge cases.  (i) Growth fitting in the free
space of the last partially-used sector claims no sectors and leaves
`numSectors` (and every block pointer) unchanged; (ii) growth to exactly
`MAX_DIRECT_SIZE` claims no indirect or second-indirect sectors and leaves
`indirSector` at the none sentinel; (iii) growth crossing the
direct-to-indirect boundary claims the single-indirect sector exactly
once: it is freshly taken from the free map, and once `indirSector` is
set any further `Expand` preserves it. -/
theorem expand_edge_cases :
    (∀ (bm : Bitmap) (h : FileHeader) (nb : Nat), wfHeader h → nb ≠ 0 →
        nb ≤ (SECTOR_SIZE - h.numBytes % SECTOR_SIZE) % SECTOR_SIZE →
        expand bm h nb = .ok bm { h with numBytes := h.numBytes + nb }) ∧
      (∀ (bm : Bitmap) (h : FileHeader) (nb : Nat) (bm' : Bitmap)
          (h' : FileHeader), wfHeader h → nb ≠ 0 →
        h.numBytes + nb = MAX_DIRECT_SIZE → expand bm h nb = .ok bm' h' →
        h'.indirSector = -1 ∧ h'.firstIndir = h.firstIndir ∧
          h'.secondIndir = h.secondIndir) ∧
      (∀ (bm : Bitmap) (h : FileHeader) (nb : Nat) (bm' : Bitmap)
          (h' : FileHeader), wfHeader h →
        MAX_DIRECT_SIZE < h.numBytes + nb → h.numBytes ≤ MAX_DIRECT_SIZE →
        expand bm h nb = .ok bm' h' →
        h'.indirSector ≠ -1 ∧ bmTest bm h'.indirSector.toNat = false ∧
          bmTest bm' h'.indirSector.toNat = true) ∧
      (∀ (bm : Bitmap) (h : FileHeader) (nb : Nat) (bm' : Bitmap)
          (h' : FileHeader), h.indirSector ≠ -1 →
        expand bm h nb = .ok bm' h' → h'.indirSector = h.indirSector) :=
  ⟨expand_within_last_sector, expand_to_direct_limit, expand_cross_boundary,
   expand_preserves_indir⟩

def w6h1 : FileHeader :=
  ⟨100, 1, -1, 5 :: List.replicate 28 (-1), List.replicate 32 (-1),
   List.replicate 32 (List.replicate 32 (-1))⟩

def w6b1 : Bitmap := [true, false]

def w6h2 : FileHeader :=
  ⟨3600, 29, -1, List.replicate 29 7, List.replicate 32 (-1),
   List.replicate 32 (List.replicate 32 (-1))⟩

def w6h2' : FileHeader :=
  ⟨3712, 29, -1, List.replicate 29 7, List.replicate 32 (-1),
   List.replicate 32 (List.replicate 32 (-1))⟩

def w6h3 : FileHeader :=
  ⟨3712, 29, -1, List.replicate 29 7, List.replicate 32 (-1),
   List.replicate 32 (List.replicate 32 (-1))⟩

def w6b3 : Bitmap := [false, false, false]

def w6b3' : Bitmap := [true, true, true]

def w6h3' : FileHeader :=
  ⟨3713, 30, 0, List.replicate 29 7, 1 :: List.replicate 31 (-1),
   (2 :: List.replicate 31 (-1)) :: List.replicate 31 (List.replicate 32 (-1))⟩

def w6b4 : Bitmap := [false]

def w6h4' : FileHeader :=
  ⟨3841, 31, 0, List.replicate 29 7, 1 :: List.replicate 31 (-1),
   (2 :: List.replicate 31 (-1)) :: List.replicate 31 (List.replicate 32 (-1))⟩

theorem expand_edge_cases_witness :
    expand w6b1 w6h1 20 = .ok w6b1 { w6h1 with numBytes := w6h1.numBytes + 20 } ∧
      (w6h2'.indirSector = -1 ∧ w6h2'.firstIndir = w6h2.firstIndir ∧
        w6h2'.secondIndir = w6h2.secondIndir) ∧
      (w6h3'.indirSector ≠ -1 ∧ bmTest w6b3 w6h3'.indirSector.toNat = false ∧
        bmTest w6b3' w6h3'.indirSector.toNat = true) ∧
      w6h4'.indirSector = w6h3'.indirSector :=
  ⟨expand_edge_cases.1 w6b1 w6h1 20 (by decide) (by decide) (by decide),
   expand_edge_cases.2.1 w6b1 w6h2 112 w6b1 w6h2' (by decide) (by decide)
     (by decide) (by decide),
   expand_edge_cases.2.2.1 w6b3 w6h3 1 w6b3' w6h3' (by decide) (by decide)
     (by decide) (by decide),
   expand_edge_cases.2.2.2 w6b4 w6h3' 128 w6b4 w6h4' (by decide) (by decide)⟩

end Nachos
